import Mathlib

/-!
Verification development for the bt-automata scoring subsystem.

The Python source is shallowly embedded as follows:

* torch 1-D float tensors become `List ℝ` (float arithmetic is modelled as
  exact real arithmetic; `torch.nn.functional.normalize(v, dim=0)` is
  `v / max(‖v‖₂, 1e-12)`, modelled as division by the Euclidean norm — the
  two agree at `‖v‖ = 0`, where both return the zero vector, because Lean's
  real division by zero yields 0);
* numpy integer grids become `List ℤ` / `List (List ℤ)`;
* Python code that can raise is modelled with explicit outcome types
  (`Except`, `PyOutcome`); behaviour of external library calls
  (`torch.zeros_like`, `cellpylib.evolve`, the grid codec in
  `bt_automata.utils.misc`) is modelled from their documented contracts or,
  where the repository file is absent, from the specification.

Definitions mirror `bt_automata/validator/reward_funcs.py`,
`bt_automata/utils/rulesets.py`, `template/utils/rulesets.py` and
`neurons/validator.py`; the intermediate names `pt_1 … pt_8`, `comp_max`,
`compute_rewards_sigmoid`, `compute_rewards_log`, `get_accuracy`,
`get_rewards` follow the source.
-/

namespace BtAutomata

/-! ## Tensor primitives -/

/-- Maximum of a tensor, `t.max()`; torch errors on an empty tensor, the
`[]` case never arises under the hypotheses used below. -/
noncomputable def tmax : List ℝ → ℝ
  | [] => 0
  | x :: xs => xs.foldl max x

/-- Minimum of a tensor, `t.min()`. -/
noncomputable def tmin : List ℝ → ℝ
  | [] => 0
  | x :: xs => xs.foldl min x

/-- Mean of a tensor, `t.mean()`. -/
noncomputable def tmean (l : List ℝ) : ℝ := l.sum / l.length

/-- Euclidean norm of a tensor. -/
noncomputable def l2norm (v : List ℝ) : ℝ := Real.sqrt ((v.map (fun x => x ^ 2)).sum)

/-- `TF.normalize(v, dim=0)`: divide every entry by the Euclidean norm
(the `eps = 1e-12` clamp only matters for `0 < ‖v‖ < 1e-12`; at `‖v‖ = 0`
both the torch call and Lean's division by zero give the zero vector). -/
noncomputable def tf_normalize (v : List ℝ) : List ℝ := v.map (fun x => x / l2norm v)

/-- The logistic function `TF.sigmoid`. -/
noncomputable def sigmoid (x : ℝ) : ℝ := 1 / (1 + Real.exp (-x))

/-! ## Reward pipeline (`bt_automata/validator/reward_funcs.py`)

`compute_rewards_sigmoid(process_times, accuracies, temp=5.0, scale_mean=1.0)`
and `compute_rewards_log(process_times, accuracies, temp=20.0, scale_mean=0.5)`
share their first four lines:

    pt_0 = TF.normalize(process_times, dim=0)
    comp_max = (1. + pt_0.max()) / 2.
    bad_pred_ids = (accuracies != 1.).nonzero().squeeze()
    pt_0[bad_pred_ids] = comp_max
-/

/-- `comp_max = (1. + pt_0.max()) / 2.`, computed from the normalized
latencies before the overwrite. -/
noncomputable def comp_max (t : List ℝ) : ℝ := (1 + tmax (tf_normalize t)) / 2

/-- `pt_0[bad_pred_ids] = comp_max`: every position whose accuracy is not 1
has its normalized latency replaced by `comp_max`. -/
noncomputable def overwrite_bad (t acc : List ℝ) : List ℝ :=
  List.zipWith (fun a x => if a = 1 then x else comp_max t) acc (tf_normalize t)

/-- Stage `pt_1` of `compute_rewards_sigmoid`: `torch.hstack((pt_0, tensor([comp_max])))`. -/
noncomputable def sig_pt1 (t acc : List ℝ) : List ℝ := overwrite_bad t acc ++ [comp_max t]

/-- Stage `pt_2` of `compute_rewards_sigmoid`: `pt_1.mean() * scale_mean - pt_1`. -/
noncomputable def sig_pt2 (t acc : List ℝ) (scale_mean : ℝ) : List ℝ :=
  (sig_pt1 t acc).map (fun x => tmean (sig_pt1 t acc) * scale_mean - x)

/-- Stage `pt_3` of `compute_rewards_sigmoid`: `pt_2 / pt_2.max()`. -/
noncomputable def sig_pt3 (t acc : List ℝ) (scale_mean : ℝ) : List ℝ :=
  (sig_pt2 t acc scale_mean).map (fun x => x / tmax (sig_pt2 t acc scale_mean))

/-- Stage `pt_5` of `compute_rewards_sigmoid`: `TF.sigmoid(temp * pt_3)`. -/
noncomputable def sig_pt5 (t acc : List ℝ) (temp scale_mean : ℝ) : List ℝ :=
  ((sig_pt3 t acc scale_mean).map (fun x => temp * x)).map sigmoid

/-- The final slice `pt_res = pt_5[:-1]` of `compute_rewards_sigmoid` (the
appended `comp_max` sentinel is dropped). -/
noncomputable def compute_rewards_sigmoid (t acc : List ℝ) (temp scale_mean : ℝ) : List ℝ :=
  (sig_pt5 t acc temp scale_mean).dropLast

/-- Stage `pt_2` of `compute_rewards_log` (`pt_1 = pt_0`, the `hstack` line
is commented out in the source). -/
noncomputable def log_pt2 (t acc : List ℝ) (scale_mean : ℝ) : List ℝ :=
  (overwrite_bad t acc).map (fun x => tmean (overwrite_bad t acc) * scale_mean - x)

/-- Stage `pt_4` of `compute_rewards_log`: `temp * (pt_2 / pt_2.max())`. -/
noncomputable def log_pt4 (t acc : List ℝ) (temp scale_mean : ℝ) : List ℝ :=
  ((log_pt2 t acc scale_mean).map (fun x => x / tmax (log_pt2 t acc scale_mean))).map
    (fun x => temp * x)

/-- Stage `pt_6` of `compute_rewards_log`: `torch.log(1. - pt_4.min() + pt_4)`. -/
noncomputable def log_pt6 (t acc : List ℝ) (temp scale_mean : ℝ) : List ℝ :=
  ((log_pt4 t acc temp scale_mean).map
    (fun x => 1 - tmin (log_pt4 t acc temp scale_mean) + x)).map Real.log

/-- Stage `pt_8` of `compute_rewards_log`: `pt_7 - pt_7.min()` with `pt_7 = pt_6`. -/
noncomputable def log_pt8 (t acc : List ℝ) (temp scale_mean : ℝ) : List ℝ :=
  (log_pt6 t acc temp scale_mean).map (fun x => x - tmin (log_pt6 t acc temp scale_mean))

/-- The final stage `pt_res = pt_9 = pt_8 / pt_8.max()` of `compute_rewards_log`. -/
noncomputable def compute_rewards_log (t acc : List ℝ) (temp scale_mean : ℝ) : List ℝ :=
  (log_pt8 t acc temp scale_mean).map (fun x => x / tmax (log_pt8 t acc temp scale_mean))

/-! ## Accuracy check (`get_accuracy` of `reward_funcs.py`)

The grid codec `decompress_and_deserialize` lives in
`bt_automata/utils/misc.py`, which is not part of the sources; per §6 of the
specification its decode failures are representable as "absent" rather than
thrown. The embedding keeps the hypothetical raising outcomes explicit so
that `get_accuracy`'s `except ValueError` branch is modelled faithfully. -/

/-- A numpy history grid of small integers. -/
abbrev Grid := List (List ℤ)

/-- What the grid codec hands back when it returns. -/
inductive DecodedVal where
  | arr (g : Grid)
  | nonArray
deriving DecidableEq

/-- Modelled from the spec: outcome of `decompress_and_deserialize(response.array_data)`
(`bt_automata/utils/misc.py` is missing from the sources). The §6 codec
contract makes `val` the only outcome: decode failure is returned as
`val none`, never thrown. -/
inductive DecodeOutcome where
  | val (v : Option DecodedVal)
  | raisesValueError
  | raisesOther (e : String)

/-- `get_accuracy(ground_truth_array, response)`, as a function of the
codec outcome on `response.array_data`:

* `pred_array is None` → `0.0`;
* not a numpy array → `0.0`;
* otherwise `1.0` iff `np.array_equal(ground_truth_array, pred_array)`
  (shape and elementwise integer equality);
* a `ValueError` from the codec would be caught (`accuracy = 0.0`), but the
  logging line then reads `pred_array`, which was never assigned on that
  path, so an `UnboundLocalError` escapes;
* any other exception from the codec is not caught at all. -/
noncomputable def get_accuracy (ground_truth_array : Grid) (decoded : DecodeOutcome) :
    Except String ℝ :=
  match decoded with
  | .raisesOther e => .error e
  | .raisesValueError =>
      .error "UnboundLocalError: local variable pred_array referenced before assignment"
  | .val none => .ok 0
  | .val (some .nonArray) => .ok 0
  | .val (some (.arr pred_array)) =>
      .ok (if ground_truth_array = pred_array then 1 else 0)

/-! ## `get_rewards` and the validator round (`reward_funcs.py`, `neurons/validator.py`) -/

/-- Result of a Python call: a return value or an escaped exception. -/
inductive PyOutcome (α : Type) where
  | ret (a : α)
  | exn (e : String)

/-- What `get_rewards` can hand back: the normal `(resp_uids, rewards)`
pair, or the bare tensor returned by the abort branches. -/
inductive GRReturn where
  | pair (uids : List ℕ) (rewards : List ℝ)
  | bare (t : List ℝ)

/-- The fields of `CAsynapse` that `get_rewards` reads (`initial_state` is
kept in decoded form; the codec is external). -/
structure CAsynapse where
  initial_state : Option Grid
  timesteps : ℕ
  rule_name : String

/-- The fields of a miner response that `get_rewards` reads. -/
structure Response where
  process_time : ℚ
  array_data : Option String

/-- `torch.zeros_like(0)`: torch requires a `Tensor` argument, so the
Python `int` `0` makes the call raise `TypeError`. -/
def zeros_like_int : PyOutcome (List ℝ) :=
  .exn "TypeError: zeros_like expects a Tensor argument, got int"

/-- `get_rewards(self, query_synapse, responses, rewards_scale="log")`.

* Empty responses: `return [], torch.zeros_like(0).to(self.device)` —
  evaluating `torch.zeros_like(0)` raises before the return completes, and
  this branch is outside the `try`.
* Non-empty responses: inside the `try`, the membership test
  `rule_name not in rulesets.rule_classes` reads the module attribute
  `rule_classes`, which `bt_automata/utils/rulesets.py` never defines (it
  defines `rule_classes_1D` and `rule_classes_2D`), so an `AttributeError`
  is raised for every rule name; the blanket `except Exception` handler
  then evaluates `torch.zeros_like(0)` itself, and the resulting
  `TypeError` escapes `get_rewards`. The unknown-rule abort
  `return torch.FloatTensor([])` is unreachable. -/
def get_rewards (_query : CAsynapse) (responses : List (ℕ × Response)) :
    PyOutcome GRReturn :=
  if responses.length = 0 then
    match zeros_like_int with
    | .ret z => .ret (.pair [] z)
    | .exn e => .exn e
  else
    match zeros_like_int with
    | .ret z => .ret (.pair [] z)
    | .exn e => .exn e

/-- Modelled from the spec: `BaseValidatorNeuron.update_scores`
(`bt_automata/base/validator.py` is missing from the sources) merges the
round rewards into the persisted scores by an exponential moving average
with weight `alpha`, applied only at slots that responded this round
(§4.6). -/
noncomputable def update_scores (alpha : ℝ) (prev : List ℝ) (uids : List ℕ)
    (rewards : List ℝ) : List ℝ :=
  (List.range prev.length).map (fun s =>
    match (List.zip uids rewards).find? (fun p => p.1 = s) with
    | some p => alpha * p.2 + (1 - alpha) * prev.getD s 0
    | none => prev.getD s 0)

/-- The scoring section of `Validator.forward`: it unpacks
`reward_uids, rewards = get_rewards(...)` and calls
`self.update_scores(rewards, reward_uids)`, all inside
`try: ... except Exception: log`. An escaped exception, or the
`ValueError` from unpacking a bare empty tensor into two names, is caught
and leaves the scores unchanged. -/
noncomputable def forward_scores_update (alpha : ℝ) (prev : List ℝ) (q : CAsynapse)
    (rs : List (ℕ × Response)) : List ℝ :=
  match get_rewards q rs with
  | .ret (.pair uids rewards) => update_scores alpha prev uids rewards
  | .ret (.bare _) => prev
  | .exn _ => prev

/-- Scenario C query: a task descriptor whose rule name is not registered. -/
def notARuleQuery : CAsynapse :=
  { initial_state := some [[0, 1, 0]], timesteps := 5, rule_name := "NotARule" }

/-! ## Initial conditions (`InitialConditions` of both rulesets modules) -/

/-- `InitialConditions.init_2d` of `bt_automata/utils/rulesets.py`. The
constructor stores `self.simple = False` regardless of its argument, so the
density-controlled branch always runs:

* `num_cells = int(self.size * self.size * self.percentage)` (truncation,
  equal to the floor for the non-negative products of interest);
* `cells = np.array([1]*num_cells + [0]*(self.size^2 - num_cells))` — in
  Python `self.size ^ 2` is bitwise XOR, not the cell count, and a negative
  repeat count yields an empty list (truncated subtraction);
* `initial_state = cells.reshape(1, rows, cols)` reads the undefined names
  `rows` and `cols`, raising `NameError` before anything is returned. -/
def init_2d (size : ℕ) (percentage : ℚ) : Except String (List ℤ) :=
  let num_cells : ℕ := (⌊(size : ℚ) * size * percentage⌋).toNat
  let _cells : List ℤ :=
    List.replicate num_cells 1 ++ List.replicate ((size ^^^ 2) - num_cells) 0
  .error "NameError: name rows is not defined"

/-- `InitialConditions.init_random_2d` of `template/utils/rulesets.py`, up
to the `np.random.shuffle` (a permutation): the flat cell vector with
`num_cells = int(rows * cols * percentage)` ones followed by zeros. -/
def init_random_2d_cells (rows cols : ℕ) (percentage : ℚ) : List ℤ :=
  let num_cells : ℕ := (⌊(rows : ℚ) * cols * percentage⌋).toNat
  List.replicate num_cells 1 ++ List.replicate (rows * cols - num_cells) 0

/-! ## Simulation engine (`Simulate1D`, `Simulate2D` of `rulesets.py`)

`Simulate1D.run` / `Simulate2D.run` delegate to `cellpylib.evolve` /
`cellpylib.evolve2d`. Modelled from the spec: cellpylib is an external
package; §4.3 fixes the semantics — starting from the seed as step 0,
apply the rule to every cell's neighborhood once per timestep, with
toroidal (wrap-around) boundaries; Moore neighborhoods include diagonals,
von Neumann neighborhoods do not (§ Glossary). The rule receives the
neighborhood window, the current cell value and the time index. -/

/-- Toroidal index wrap. -/
def wrapIdx (len : ℕ) (z : ℤ) : ℕ := (z.emod len).toNat

/-- Radius-`r` wrap-around neighborhood of cell `i` in a 1-D row. -/
def neigh1d (row : List ℤ) (i r : ℕ) : List ℤ :=
  (List.range (2 * r + 1)).map (fun k => row.getD (wrapIdx row.length ((i : ℤ) + k - r)) 0)

/-- One synchronous 1-D step at time `t`. -/
def step1d (rule : List ℤ → ℤ → ℕ → ℤ) (r t : ℕ) (row : List ℤ) : List ℤ :=
  (List.range row.length).map (fun i => rule (neigh1d row i r) (row.getD i 0) t)

/-- `cpl.nks_rule(n, rule)`: Wolfram's elementary-rule numbering — the
neighborhood read as a binary number selects a bit of the rule number. -/
def nks_rule (n : List ℤ) (ruleNum : ℕ) : ℤ :=
  (((ruleNum >>> (n.foldl (fun a c => 2 * a + c.toNat) 0)) &&& 1 : ℕ) : ℤ)

/-- `Rule30.rule_function` of `rulesets.py`. -/
def rule30_fn (n : List ℤ) (_c : ℤ) (_t : ℕ) : ℤ := nks_rule n 30

/-- `GameOfLifeRule.rule_function` of `rulesets.py`: count live neighbors
as `np.sum(n) - c` and apply Conway's rules. -/
def game_of_life_fn (n : List ℤ) (c : ℤ) (_t : ℕ) : ℤ :=
  let live_neighbors := n.sum - c
  if c = 1 ∧ 2 ≤ live_neighbors ∧ live_neighbors ≤ 3 then 1
  else if c = 0 ∧ live_neighbors = 3 then 1
  else 0

/-- State after `n` applications of the indexed step function. -/
def traceState {σ : Type} (f : ℕ → σ → σ) (init : σ) : ℕ → σ
  | 0 => init
  | n + 1 => f n (traceState f init n)

/-- Full space-time history: seed as step 0 plus `steps` further states. -/
def traceList {σ : Type} (f : ℕ → σ → σ) (init : σ) (steps : ℕ) : List σ :=
  (List.range (steps + 1)).map (traceState f init)

/-- `Simulate1D(ca, timesteps, rule_instance, r).run()`. -/
def Simulate1D_run (ca : List ℤ) (timesteps : ℕ) (rule : List ℤ → ℤ → ℕ → ℤ)
    (r : ℕ) : List (List ℤ) :=
  traceList (fun t row => step1d rule r t row) ca timesteps

/-- Value of cell `(i, j)` of a 2-D grid. -/
def cell2d (g : Grid) (i j : ℕ) : ℤ := (g.getD i []).getD j 0

/-- Radius-`r` wrap-around neighborhood of cell `(i, j)`: full square for
Moore, the `|di| + |dj| ≤ r` diamond for von Neumann. -/
def neigh2d (g : Grid) (i j r : ℕ) (moore : Bool) : List ℤ :=
  (List.range (2 * r + 1)).flatMap (fun di =>
    (List.range (2 * r + 1)).filterMap (fun dj =>
      if moore ∨ ((di : ℤ) - r).natAbs + ((dj : ℤ) - r).natAbs ≤ r then
        some (cell2d g (wrapIdx g.length ((i : ℤ) + di - r))
          (wrapIdx (g.headD []).length ((j : ℤ) + dj - r)))
      else none))

/-- One synchronous 2-D step at time `t`. -/
def step2d (rule : List ℤ → ℤ → ℕ → ℤ) (r : ℕ) (moore : Bool) (t : ℕ)
    (g : Grid) : Grid :=
  (List.range g.length).map (fun i =>
    (List.range ((g.headD []).length)).map (fun j =>
      rule (neigh2d g i j r moore) (cell2d g i j) t))

/-- The constructor guard of `Simulate2D`: any string other than `"Moore"`
or `"von Neumann"` falls back to `"Moore"`. -/
def neighbourhood_or_default (nt : String) : String :=
  if nt = "Moore" ∨ nt = "von Neumann" then nt else "Moore"

/-- `Simulate2D(ca, timesteps, rule_instance, r, neighbourhood_type).run()`. -/
def Simulate2D_run (ca : Grid) (timesteps : ℕ) (rule : List ℤ → ℤ → ℕ → ℤ)
    (r : ℕ) (neighbourhood_type : String) : List Grid :=
  traceList
    (fun t g => step2d rule r (neighbourhood_or_default neighbourhood_type == "Moore") t g)
    ca timesteps

/-- A list `H` is an execution history of the indexed step function `f`
from `init` over `steps` steps: the defining recurrence of §4.3. -/
abbrev IsTrace {σ : Type} (f : ℕ → σ → σ) (init : σ) (steps : ℕ) (H : List σ) : Prop :=
  H.length = steps + 1 ∧ H[0]? = some init ∧
    ∀ t, t < steps → H[t + 1]? = (H[t]?).map (f t)

/-! ## List index and aggregation lemmas -/

theorem getD_map_of_lt {α β : Type} (f : α → β) (d : α) (d' : β) :
    ∀ (l : List α) (i : ℕ), i < l.length → (l.map f).getD i d' = f (l.getD i d)
  | a :: _, 0, _ => rfl
  | _ :: l, i + 1, h =>
      getD_map_of_lt f d d' l i (Nat.lt_of_succ_lt_succ (by simpa using h))

theorem getD_zipWith_of_lt {α β γ : Type} (f : α → β → γ) (da : α) (db : β) (d : γ) :
    ∀ (a : List α) (b : List β) (i : ℕ), i < (List.zipWith f a b).length →
      (List.zipWith f a b).getD i d = f (a.getD i da) (b.getD i db)
  | _ :: _, _ :: _, 0, _ => rfl
  | _ :: a, _ :: b, i + 1, h =>
      getD_zipWith_of_lt f da db d a b i (Nat.lt_of_succ_lt_succ (by simpa using h))

theorem getD_append_of_lt {α : Type} (d : α) :
    ∀ (l₁ l₂ : List α) (i : ℕ), i < l₁.length → (l₁ ++ l₂).getD i d = l₁.getD i d
  | _ :: _, _, 0, _ => rfl
  | _ :: l₁, l₂, i + 1, h =>
      getD_append_of_lt d l₁ l₂ i (Nat.lt_of_succ_lt_succ (by simpa using h))

theorem getD_dropLast_of_lt {α : Type} (d : α) :
    ∀ (l : List α) (i : ℕ), i + 1 < l.length → l.dropLast.getD i d = l.getD i d
  | _ :: _ :: _, 0, _ => rfl
  | a :: b :: l, i + 1, h => by
      have ih := getD_dropLast_of_lt d (b :: l) i (Nat.lt_of_succ_lt_succ h)
      simpa using ih

theorem mem_of_mem_dropLast {α : Type} {x : α} :
    ∀ {l : List α}, x ∈ l.dropLast → x ∈ l
  | _ :: _ :: _, h => by
      rcases List.mem_cons.mp h with rfl | h'
      · exact List.mem_cons_self _ _
      · exact List.mem_cons_of_mem _ (mem_of_mem_dropLast h')

theorem init_le_foldl_max : ∀ (xs : List ℝ) (a : ℝ), a ≤ xs.foldl max a
  | [], _ => le_refl _
  | x :: xs, a => le_trans (le_max_left a x) (init_le_foldl_max xs (max a x))

theorem le_foldl_max_of_mem {x : ℝ} :
    ∀ {xs : List ℝ} (a : ℝ), x ∈ xs → x ≤ xs.foldl max a
  | y :: ys, a, h => by
      rcases List.mem_cons.mp h with rfl | hmem
      · exact le_trans (le_max_right a x) (init_le_foldl_max ys (max a x))
      · exact le_foldl_max_of_mem (max a y) hmem

theorem foldl_max_mem : ∀ (xs : List ℝ) (a : ℝ), xs.foldl max a ∈ a :: xs
  | [], a => List.mem_singleton.mpr rfl
  | y :: ys, a => by
      have ih := foldl_max_mem ys (max a y)
      rcases List.mem_cons.mp ih with hl | hr
      · show ys.foldl max (max a y) ∈ a :: y :: ys
        rw [hl]
        rcases max_choice a y with h | h
        · rw [h]; exact List.mem_cons_self _ _
        · rw [h]; exact List.mem_cons_of_mem _ (List.mem_cons_self _ _)
      · exact List.mem_cons_of_mem _ (List.mem_cons_of_mem _ hr)

theorem le_tmax_of_mem {x : ℝ} {l : List ℝ} (h : x ∈ l) : x ≤ tmax l := by
  cases l with
  | nil => cases h
  | cons y ys =>
      rcases List.mem_cons.mp h with rfl | hmem
      · exact init_le_foldl_max ys x
      · exact le_foldl_max_of_mem y hmem

theorem tmax_mem {l : List ℝ} (h : l ≠ []) : tmax l ∈ l := by
  cases l with
  | nil => exact absurd rfl h
  | cons y ys => exact foldl_max_mem ys y

theorem foldl_min_le_init : ∀ (xs : List ℝ) (a : ℝ), xs.foldl min a ≤ a
  | [], _ => le_refl _
  | x :: xs, a => le_trans (foldl_min_le_init xs (min a x)) (min_le_left a x)

theorem foldl_min_le_of_mem {x : ℝ} :
    ∀ {xs : List ℝ} (a : ℝ), x ∈ xs → xs.foldl min a ≤ x
  | y :: ys, a, h => by
      rcases List.mem_cons.mp h with rfl | hmem
      · exact le_trans (foldl_min_le_init ys (min a x)) (min_le_right a x)
      · exact foldl_min_le_of_mem (min a y) hmem

theorem foldl_min_mem : ∀ (xs : List ℝ) (a : ℝ), xs.foldl min a ∈ a :: xs
  | [], a => List.mem_singleton.mpr rfl
  | y :: ys, a => by
      have ih := foldl_min_mem ys (min a y)
      rcases List.mem_cons.mp ih with hl | hr
      · show ys.foldl min (min a y) ∈ a :: y :: ys
        rw [hl]
        rcases min_choice a y with h | h
        · rw [h]; exact List.mem_cons_self _ _
        · rw [h]; exact List.mem_cons_of_mem _ (List.mem_cons_self _ _)
      · exact List.mem_cons_of_mem _ (List.mem_cons_of_mem _ hr)

theorem tmin_le_of_mem {x : ℝ} {l : List ℝ} (h : x ∈ l) : tmin l ≤ x := by
  cases l with
  | nil => cases h
  | cons y ys =>
      rcases List.mem_cons.mp h with rfl | hmem
      · exact foldl_min_le_init ys x
      · exact foldl_min_le_of_mem y hmem

theorem tmin_mem {l : List ℝ} (h : l ≠ []) : tmin l ∈ l := by
  cases l with
  | nil => exact absurd rfl h
  | cons y ys => exact foldl_min_mem ys y

theorem foldl_max_map_sub (c : ℝ) :
    ∀ (xs : List ℝ) (a : ℝ),
      (xs.map (fun x => c - x)).foldl max (c - a) = c - xs.foldl min a
  | [], _ => rfl
  | y :: ys, a => by
      have h : max (c - a) (c - y) = c - min a y := max_sub_sub_left c a y
      simpa [h] using foldl_max_map_sub c ys (min a y)

theorem tmax_map_sub (c : ℝ) {l : List ℝ} (h : l ≠ []) :
    tmax (l.map (fun x => c - x)) = c - tmin l := by
  cases l with
  | nil => exact absurd rfl h
  | cons y ys => simpa [tmax, tmin] using foldl_max_map_sub c ys y

theorem mul_card_le_sum {c : ℝ} :
    ∀ {l : List ℝ}, (∀ x ∈ l, c ≤ x) → c * l.length ≤ l.sum
  | [], _ => by simp
  | x :: xs, h => by
      have hx : c ≤ x := h x (List.mem_cons_self _ _)
      have ih := mul_card_le_sum (fun y hy => h y (List.mem_cons_of_mem _ hy))
      simp only [List.sum_cons, List.length_cons]
      push_cast
      nlinarith [ih]

theorem mul_card_lt_sum {c : ℝ} :
    ∀ {l : List ℝ}, (∀ x ∈ l, c ≤ x) → (∃ x ∈ l, c < x) → c * l.length < l.sum
  | [], _, hx => by rcases hx with ⟨x, hx, _⟩; cases hx
  | x :: xs, h, hex => by
      have hx : c ≤ x := h x (List.mem_cons_self _ _)
      have htail : ∀ y ∈ xs, c ≤ y := fun y hy => h y (List.mem_cons_of_mem _ hy)
      rcases hex with ⟨y, hy, hlt⟩
      rcases List.mem_cons.mp hy with rfl | hymem
      · have ih := mul_card_le_sum htail
        simp only [List.sum_cons, List.length_cons]
        push_cast
        nlinarith [ih]
      · have ih := mul_card_lt_sum htail ⟨y, hymem, hlt⟩
        simp only [List.sum_cons, List.length_cons]
        push_cast
        nlinarith [ih]

theorem sum_of_all_eq {c : ℝ} :
    ∀ {l : List ℝ}, (∀ x ∈ l, x = c) → l.sum = l.length * c
  | [], _ => by simp
  | x :: xs, h => by
      have hx : x = c := h x (List.mem_cons_self _ _)
      have ih := sum_of_all_eq (fun y hy => h y (List.mem_cons_of_mem _ hy))
      simp only [List.sum_cons, List.length_cons, ih, hx]
      push_cast
      ring

theorem tmin_lt_tmean {l : List ℝ} (hne : l ≠ []) (hex : ∃ x ∈ l, tmin l < x) :
    tmin l < tmean l := by
  have hlen : (0 : ℝ) < l.length := by
    have := List.length_pos.mpr hne
    exact_mod_cast this
  have hb : ∀ x ∈ l, tmin l ≤ x := fun x hx => tmin_le_of_mem hx
  have hsum := mul_card_lt_sum hb hex
  rw [tmean, lt_div_iff₀ hlen]
  exact hsum

/-! ## Bounds on the L2 normalization -/

theorem l2norm_nonneg (t : List ℝ) : 0 ≤ l2norm t := Real.sqrt_nonneg _

theorem sq_le_sum_sq {x : ℝ} {t : List ℝ} (hx : x ∈ t) :
    x ^ 2 ≤ ((t.map (fun y => y ^ 2)).sum) := by
  refine List.single_le_sum (fun y hy => ?_) (x ^ 2) (List.mem_map_of_mem _ hx)
  rcases List.mem_map.mp hy with ⟨z, _, rfl⟩
  positivity

theorem abs_le_l2norm {x : ℝ} {t : List ℝ} (hx : x ∈ t) : |x| ≤ l2norm t := by
  rw [l2norm, ← Real.sqrt_sq_eq_abs]
  exact Real.sqrt_le_sqrt (sq_le_sum_sq hx)

theorem entry_div_l2norm_le_one {x : ℝ} {t : List ℝ} (hx : x ∈ t) : x / l2norm t ≤ 1 := by
  rcases eq_or_lt_of_le (l2norm_nonneg t) with h0 | hpos
  · rw [← h0, div_zero]; norm_num
  · rw [div_le_one hpos]
    exact le_trans (le_abs_self x) (abs_le_l2norm hx)

theorem tmax_tf_normalize_le_one (t : List ℝ) : tmax (tf_normalize t) ≤ 1 := by
  by_cases hn : tf_normalize t = []
  · rw [hn]; rw [tmax]; norm_num
  · have hm := tmax_mem hn
    rw [tf_normalize] at hm
    rcases List.mem_map.mp hm with ⟨x, hx, heq⟩
    rw [tf_normalize, ← heq]
    exact entry_div_l2norm_le_one hx

theorem tmax_tf_normalize_le_comp_max (t : List ℝ) : tmax (tf_normalize t) ≤ comp_max t := by
  have h := tmax_tf_normalize_le_one t
  rw [comp_max]
  linarith

/-! ## Per-index formulas for the two reward pipelines -/

theorem overwrite_bad_getD_bad (t acc : List ℝ) (i : ℕ)
    (hi : i < (overwrite_bad t acc).length) (hbad : acc.getD i 0 ≠ 1) :
    (overwrite_bad t acc).getD i 0 = comp_max t := by
  rw [overwrite_bad, getD_zipWith_of_lt _ 0 0 0 acc (tf_normalize t) i
    (by simpa [overwrite_bad] using hi)]
  exact if_neg hbad

theorem length_log_pt2 (t acc : List ℝ) (sm : ℝ) :
    (log_pt2 t acc sm).length = (overwrite_bad t acc).length := by
  simp [log_pt2]

theorem length_log_pt4 (t acc : List ℝ) (temp sm : ℝ) :
    (log_pt4 t acc temp sm).length = (overwrite_bad t acc).length := by
  simp [log_pt4, log_pt2]

theorem length_log_pt6 (t acc : List ℝ) (temp sm : ℝ) :
    (log_pt6 t acc temp sm).length = (overwrite_bad t acc).length := by
  simp [log_pt6, log_pt4, log_pt2]

theorem length_log_pt8 (t acc : List ℝ) (temp sm : ℝ) :
    (log_pt8 t acc temp sm).length = (overwrite_bad t acc).length := by
  simp [log_pt8, log_pt6, log_pt4, log_pt2]

theorem length_compute_rewards_log (t acc : List ℝ) (temp sm : ℝ) :
    (compute_rewards_log t acc temp sm).length = (overwrite_bad t acc).length := by
  simp [compute_rewards_log, log_pt8, log_pt6, log_pt4, log_pt2]

theorem length_sig_pt1 (t acc : List ℝ) :
    (sig_pt1 t acc).length = (overwrite_bad t acc).length + 1 := by
  simp [sig_pt1]

theorem length_sig_pt2 (t acc : List ℝ) (sm : ℝ) :
    (sig_pt2 t acc sm).length = (overwrite_bad t acc).length + 1 := by
  simp [sig_pt2, sig_pt1]

theorem length_sig_pt5 (t acc : List ℝ) (temp sm : ℝ) :
    (sig_pt5 t acc temp sm).length = (overwrite_bad t acc).length + 1 := by
  simp [sig_pt5, sig_pt3, sig_pt2, sig_pt1]

theorem length_compute_rewards_sigmoid (t acc : List ℝ) (temp sm : ℝ) :
    (compute_rewards_sigmoid t acc temp sm).length = (overwrite_bad t acc).length := by
  simp [compute_rewards_sigmoid, sig_pt5, sig_pt3, sig_pt2, sig_pt1]

theorem sig_pt1_getD (t acc : List ℝ) (i : ℕ)
    (hi : i < (overwrite_bad t acc).length) :
    (sig_pt1 t acc).getD i 0 = (overwrite_bad t acc).getD i 0 := by
  rw [sig_pt1, getD_append_of_lt 0 _ _ i hi]

/-- Explicit per-index formula for `compute_rewards_sigmoid`: entry `i` is
`sigmoid(temp · (mean·scale_mean − pt_1[i]) / pt_2.max())`. -/
theorem compute_rewards_sigmoid_getD (t acc : List ℝ) (temp sm : ℝ) (i : ℕ)
    (hi : i < (overwrite_bad t acc).length) :
    (compute_rewards_sigmoid t acc temp sm).getD i 0 =
      sigmoid (temp * ((tmean (sig_pt1 t acc) * sm - (sig_pt1 t acc).getD i 0) /
        tmax (sig_pt2 t acc sm))) := by
  have h1 : i < (sig_pt1 t acc).length := by
    rw [length_sig_pt1]; omega
  have h2 : i < (sig_pt2 t acc sm).length := by
    rw [length_sig_pt2]; omega
  have h3 : i < ((sig_pt3 t acc sm).map (fun x => temp * x)).length := by
    simp only [List.length_map, sig_pt3]
    rw [length_sig_pt2]; omega
  have h3' : i < (sig_pt3 t acc sm).length := by
    simpa using h3
  have h5 : i + 1 < (sig_pt5 t acc temp sm).length := by
    rw [length_sig_pt5]; omega
  rw [compute_rewards_sigmoid, getD_dropLast_of_lt 0 _ i h5]
  rw [sig_pt5, getD_map_of_lt sigmoid 0 0 _ i h3]
  rw [getD_map_of_lt (fun x => temp * x) 0 0 _ i h3']
  rw [sig_pt3, getD_map_of_lt _ 0 0 _ i h2]
  rw [sig_pt2, getD_map_of_lt _ 0 0 _ i h1]

/-- Explicit per-index formula for `compute_rewards_log`. -/
theorem compute_rewards_log_getD (t acc : List ℝ) (temp sm : ℝ) (i : ℕ)
    (hi : i < (overwrite_bad t acc).length) :
    (compute_rewards_log t acc temp sm).getD i 0 =
      (Real.log (1 - tmin (log_pt4 t acc temp sm) +
          temp * ((tmean (overwrite_bad t acc) * sm - (overwrite_bad t acc).getD i 0) /
            tmax (log_pt2 t acc sm))) -
        tmin (log_pt6 t acc temp sm)) / tmax (log_pt8 t acc temp sm) := by
  have h2 : i < (log_pt2 t acc sm).length := by
    rw [length_log_pt2]; omega
  have h2' : i < ((log_pt2 t acc sm).map
      (fun x => x / tmax (log_pt2 t acc sm))).length := by
    simpa using h2
  have h4 : i < (log_pt4 t acc temp sm).length := by
    rw [length_log_pt4]; omega
  have h4' : i < ((log_pt4 t acc temp sm).map
      (fun x => 1 - tmin (log_pt4 t acc temp sm) + x)).length := by
    simpa using h4
  have h6 : i < (log_pt6 t acc temp sm).length := by
    rw [length_log_pt6]; omega
  have h8 : i < (log_pt8 t acc temp sm).length := by
    rw [length_log_pt8]; omega
  rw [compute_rewards_log, getD_map_of_lt _ 0 0 _ i h8]
  rw [log_pt8, getD_map_of_lt _ 0 0 _ i h6]
  rw [log_pt6, getD_map_of_lt Real.log 0 0 _ i h4']
  rw [getD_map_of_lt _ 0 0 _ i h4]
  rw [log_pt4, getD_map_of_lt _ 0 0 _ i h2']
  rw [getD_map_of_lt _ 0 0 _ i h2]
  rw [log_pt2, getD_map_of_lt _ 0 0 _ i hi]

/-! ## Concrete evaluations of the reward pipeline

Process times `[3, 4]` give the Euclidean norm `5`, so every stage of both
pipelines evaluates to rational numbers (and logs thereof). These rounds
exercise one incorrect response (`acc = [1, 0]`) and an all-correct round
(`acc = [1, 1]`). -/

theorem l2norm_34 : l2norm [3, 4] = 5 := by
  have h : ((([3, 4] : List ℝ).map (fun x => x ^ 2)).sum) = 25 := by norm_num
  rw [l2norm, h, show (25 : ℝ) = 5 ^ 2 by norm_num,
    Real.sqrt_sq (by norm_num : (0 : ℝ) ≤ 5)]

theorem tf_normalize_34 : tf_normalize [3, 4] = [3 / 5, 4 / 5] := by
  simp [tf_normalize, l2norm_34]

theorem tmax_tf_normalize_34 : tmax (tf_normalize [3, 4]) = 4 / 5 := by
  rw [tf_normalize_34]
  rw [show tmax [(3 : ℝ) / 5, 4 / 5] = max (3 / 5) (4 / 5) by simp [tmax]]
  rw [max_eq_right (by norm_num : (3 : ℝ) / 5 ≤ 4 / 5)]

theorem comp_max_34 : comp_max [3, 4] = 9 / 10 := by
  rw [comp_max, tmax_tf_normalize_34]
  norm_num

theorem overwrite_34_10 : overwrite_bad [3, 4] [1, 0] = [3 / 5, 9 / 10] := by
  simp [overwrite_bad, tf_normalize_34, comp_max_34]

theorem log_pt2_34_10 : log_pt2 [3, 4] [1, 0] (1 / 2) = [-9 / 40, -21 / 40] := by
  rw [log_pt2, overwrite_34_10]
  have hm : tmean [(3 : ℝ) / 5, 9 / 10] = 3 / 4 := by
    simp [tmean]
    norm_num
  rw [hm]
  norm_num

theorem log_pt4_34_10 : log_pt4 [3, 4] [1, 0] 20 (1 / 2) = [20, 140 / 3] := by
  rw [log_pt4, log_pt2_34_10]
  rw [show tmax [(-9 : ℝ) / 40, -21 / 40] = max (-9 / 40) (-21 / 40) by simp [tmax]]
  rw [max_eq_left (by norm_num : (-21 : ℝ) / 40 ≤ -9 / 40)]
  norm_num

theorem log_pt6_34_10 : log_pt6 [3, 4] [1, 0] 20 (1 / 2) = [0, Real.log (83 / 3)] := by
  rw [log_pt6, log_pt4_34_10]
  rw [show tmin [(20 : ℝ), 140 / 3] = min 20 (140 / 3) by simp [tmin]]
  rw [min_eq_left (by norm_num : (20 : ℝ) ≤ 140 / 3)]
  norm_num

theorem log_34_10 : compute_rewards_log [3, 4] [1, 0] 20 (1 / 2) = [0, 1] := by
  have hL : (0 : ℝ) < Real.log (83 / 3) := Real.log_pos (by norm_num)
  rw [compute_rewards_log, log_pt8, log_pt6_34_10]
  rw [show tmin [(0 : ℝ), Real.log (83 / 3)] = min 0 (Real.log (83 / 3)) by simp [tmin]]
  rw [min_eq_left hL.le]
  norm_num
  rw [show tmax [(0 : ℝ), Real.log (83 / 3)] = max 0 (Real.log (83 / 3)) by simp [tmax]]
  rw [max_eq_right hL.le]
  exact div_self hL.ne'

theorem overwrite_34_11 : overwrite_bad [3, 4] [1, 1] = [3 / 5, 4 / 5] := by
  simp [overwrite_bad, tf_normalize_34]

theorem log_pt2_34_11 : log_pt2 [3, 4] [1, 1] (1 / 2) = [-1 / 4, -9 / 20] := by
  rw [log_pt2, overwrite_34_11]
  have hm : tmean [(3 : ℝ) / 5, 4 / 5] = 7 / 10 := by
    simp [tmean]
    norm_num
  rw [hm]
  norm_num

theorem log_pt4_34_11 : log_pt4 [3, 4] [1, 1] 20 (1 / 2) = [20, 36] := by
  rw [log_pt4, log_pt2_34_11]
  rw [show tmax [(-1 : ℝ) / 4, -9 / 20] = max (-1 / 4) (-9 / 20) by simp [tmax]]
  rw [max_eq_left (by norm_num : (-9 : ℝ) / 20 ≤ -1 / 4)]
  norm_num

theorem log_pt6_34_11 : log_pt6 [3, 4] [1, 1] 20 (1 / 2) = [0, Real.log 17] := by
  rw [log_pt6, log_pt4_34_11]
  rw [show tmin [(20 : ℝ), 36] = min 20 36 by simp [tmin]]
  rw [min_eq_left (by norm_num : (20 : ℝ) ≤ 36)]
  norm_num

theorem log_34_11 : compute_rewards_log [3, 4] [1, 1] 20 (1 / 2) = [0, 1] := by
  have hL : (0 : ℝ) < Real.log 17 := Real.log_pos (by norm_num)
  rw [compute_rewards_log, log_pt8, log_pt6_34_11]
  rw [show tmin [(0 : ℝ), Real.log 17] = min 0 (Real.log 17) by simp [tmin]]
  rw [min_eq_left hL.le]
  norm_num
  rw [show tmax [(0 : ℝ), Real.log 17] = max 0 (Real.log 17) by simp [tmax]]
  rw [max_eq_right hL.le]
  exact div_self hL.ne'

theorem sig_pt1_34_10 : sig_pt1 [3, 4] [1, 0] = [3 / 5, 9 / 10, 9 / 10] := by
  rw [sig_pt1, overwrite_34_10, comp_max_34]
  rfl

theorem sig_pt2_34_10 : sig_pt2 [3, 4] [1, 0] 1 = [1 / 5, -1 / 10, -1 / 10] := by
  rw [sig_pt2, sig_pt1_34_10]
  have hm : tmean [(3 : ℝ) / 5, 9 / 10, 9 / 10] = 4 / 5 := by
    simp [tmean]
    norm_num
  rw [hm]
  norm_num

theorem sig_34_10 : compute_rewards_sigmoid [3, 4] [1, 0] 5 1
    = [sigmoid 5, sigmoid (-5 / 2)] := by
  rw [compute_rewards_sigmoid, sig_pt5, sig_pt3, sig_pt2_34_10]
  rw [show tmax [(1 : ℝ) / 5, -1 / 10, -1 / 10]
      = max (max (1 / 5) (-1 / 10)) (-1 / 10) by simp [tmax]]
  rw [max_eq_left (by norm_num : (-1 : ℝ) / 10 ≤ max (1 / 5) (-1 / 10)),
    max_eq_left (by norm_num : (-1 : ℝ) / 10 ≤ 1 / 5)]
  norm_num

theorem sigmoid_pos (x : ℝ) : 0 < sigmoid x := by
  rw [sigmoid]
  positivity

/-! ## Claims C1, C2, C3 and the C9 counterexample -/

/-- C1 counterexample: in `compute_rewards_log` — the variant `get_rewards`
invokes by default, at the source's default `temp = 20`, `scale_mean = 0.5` —
the round with process times `[3, 4]` and accuracies `[1, 0]` gives the
second response accuracy `0` yet reward exactly `1`, not `0` (the
`pt_2 / pt_2.max()` step divides by a negative maximum and reverses the
ordering). -/
theorem c1_counterexample :
    (([1, 0] : List ℝ).getD 1 0 = 0) ∧
      (compute_rewards_log [3, 4] [1, 0] 20 (1 / 2)).getD 1 0 = 1 ∧ (1 : ℝ) ≠ 0 := by
  refine ⟨rfl, ?_, by norm_num⟩
  rw [log_34_10]
  rfl

/-- C1 (amended): accuracy `0` does not force reward `0`, and the reward is
not `accuracy × speed`: an incorrect response is penalized only by
overwriting its normalized latency with `comp_max`, and in
`compute_rewards_sigmoid` every response — whatever its accuracy — receives
a strictly positive reward. -/
theorem c1_sigmoid_rewards_positive (t acc : List ℝ) (temp scale_mean : ℝ) :
    ∀ r ∈ compute_rewards_sigmoid t acc temp scale_mean, 0 < r := by
  intro r hr
  rw [compute_rewards_sigmoid] at hr
  have h5 := mem_of_mem_dropLast hr
  rw [sig_pt5] at h5
  rcases List.mem_map.mp h5 with ⟨x, _, rfl⟩
  exact sigmoid_pos x

/-- Witness for C1 (amended): the incorrect response of the
`[3, 4]` / `[1, 0]` round receives the strictly positive sigmoid reward
`sigmoid (-5/2)`. -/
theorem c1_witness :
    sigmoid (-5 / 2) ∈ compute_rewards_sigmoid [3, 4] [1, 0] 5 1 ∧
      0 < sigmoid (-5 / 2) := by
  have hmem : sigmoid (-5 / 2) ∈ compute_rewards_sigmoid [3, 4] [1, 0] 5 1 := by
    rw [sig_34_10]
    exact List.mem_cons_of_mem _ (List.mem_singleton.mpr rfl)
  exact ⟨hmem, c1_sigmoid_rewards_positive [3, 4] [1, 0] 5 1 _ hmem⟩

/-- C2 counterexample: with process times `[3, 4]` and accuracies `[1, 0]`,
the incorrect response's normalized latency is overwritten with `9/10`,
which is not the maximum normalized latency `4/5` observed in the round. -/
theorem c2_counterexample :
    (overwrite_bad [3, 4] [1, 0]).getD 1 0 = 9 / 10 ∧
      tmax (tf_normalize [3, 4]) = 4 / 5 ∧ (9 : ℝ) / 10 ≠ 4 / 5 := by
  refine ⟨?_, tmax_tf_normalize_34, by norm_num⟩
  rw [overwrite_34_10]
  rfl

/-- C2 (amended): every response whose accuracy is not `1` has its
normalized latency overwritten with `comp_max = (1 + max)/2`, the midpoint
between the maximum normalized latency and `1`; this value is at least the
observed maximum (every L2-normalized latency is ≤ 1), so no incorrect
response retains a normalized latency below the observed maximum. -/
theorem c2_overwrite_midpoint (t acc : List ℝ) (i : ℕ)
    (hi : i < (overwrite_bad t acc).length) (hbad : acc.getD i 0 ≠ 1) :
    (overwrite_bad t acc).getD i 0 = comp_max t ∧
      tmax (tf_normalize t) ≤ comp_max t := by
  exact ⟨overwrite_bad_getD_bad t acc i hi hbad, tmax_tf_normalize_le_comp_max t⟩

/-- Witness for C2 (amended), at the `[3, 4]` / `[1, 0]` round, position 1. -/
theorem c2_witness :
    1 < (overwrite_bad [3, 4] [1, 0]).length ∧ (([1, 0] : List ℝ).getD 1 0 ≠ 1) ∧
      (overwrite_bad [3, 4] [1, 0]).getD 1 0 = comp_max [3, 4] ∧
        tmax (tf_normalize [3, 4]) ≤ comp_max [3, 4] := by
  have hi : 1 < (overwrite_bad [3, 4] [1, 0]).length := by
    rw [overwrite_34_10]
    norm_num
  have hbad : (([1, 0] : List ℝ).getD 1 0 ≠ 1) := by
    norm_num
  exact ⟨hi, hbad, c2_overwrite_midpoint [3, 4] [1, 0] 1 hi hbad⟩

/-- C3 counterexample: the round `[3, 4]` (two present responses) is
normalized to `[3/5, 4/5]`: the minimum latency maps to `3/5`, not `0`,
and the maximum maps to `4/5`, not `1`, so the normalization is not
min-max. -/
theorem c3_counterexample :
    tf_normalize [3, 4] = [3 / 5, 4 / 5] ∧ (3 : ℝ) / 5 ≠ 0 ∧ (4 : ℝ) / 5 ≠ 1 :=
  ⟨tf_normalize_34, by norm_num, by norm_num⟩

/-- C3 (amended): the latency normalization divides each latency by the
Euclidean norm of the round's latency vector (`TF.normalize`), not min-max:
for non-negative latencies every normalized value lies in `[0, 1]`, but the
minimum need not map to `0` nor the maximum to `1`. -/
theorem c3_l2_normalize_bounds (t : List ℝ) (hpos : ∀ x ∈ t, 0 ≤ x) :
    ∀ y ∈ tf_normalize t, 0 ≤ y ∧ y ≤ 1 := by
  intro y hy
  rw [tf_normalize] at hy
  rcases List.mem_map.mp hy with ⟨x, hx, rfl⟩
  exact ⟨div_nonneg (hpos x hx) (l2norm_nonneg t), entry_div_l2norm_le_one hx⟩

/-- Witness for C3 (amended): the normalized value `3/5` of the round
`[3, 4]` lies in `[0, 1]`. -/
theorem c3_witness :
    (∀ x ∈ ([3, 4] : List ℝ), 0 ≤ x) ∧ (3 : ℝ) / 5 ∈ tf_normalize [3, 4] ∧
      0 ≤ (3 : ℝ) / 5 ∧ (3 : ℝ) / 5 ≤ 1 := by
  have hpos : ∀ x ∈ ([3, 4] : List ℝ), 0 ≤ x := by
    intro x hx
    rcases List.mem_cons.mp hx with rfl | hx'
    · norm_num
    · rcases List.mem_singleton.mp hx' with rfl
      norm_num
  have hmem : (3 : ℝ) / 5 ∈ tf_normalize [3, 4] := by
    rw [tf_normalize_34]
    exact List.mem_cons_self _ _
  exact ⟨hpos, hmem, c3_l2_normalize_bounds [3, 4] hpos _ hmem⟩

/-- C9 counterexample: in an all-correct round with process times `[3, 4]`,
`compute_rewards_log` (the default variant, default parameters) rewards the
strictly slower response `1` and the faster one `0`: rewards are not
non-increasing in normalized latency. -/
theorem c9_counterexample :
    (tf_normalize [3, 4]).getD 0 0 < (tf_normalize [3, 4]).getD 1 0 ∧
      (compute_rewards_log [3, 4] [1, 1] 20 (1 / 2)).getD 0 0 <
        (compute_rewards_log [3, 4] [1, 1] 20 (1 / 2)).getD 1 0 := by
  constructor
  · rw [tf_normalize_34]
    norm_num
  · rw [log_34_11]
    norm_num

/-! ## Claim C10 -/

/-- C10: any two responses whose accuracy is not 1 receive exactly the same
reward from both `compute_rewards_sigmoid` and `compute_rewards_log`,
regardless of their elapsed latencies: both positions are overwritten with
the common `comp_max` before the remaining transforms, which act pointwise
apart from global aggregates. -/
theorem c10_incorrect_rewards_equal (t acc : List ℝ) (temp sm : ℝ) (i j : ℕ)
    (hi : i < (overwrite_bad t acc).length) (hj : j < (overwrite_bad t acc).length)
    (hbi : acc.getD i 0 ≠ 1) (hbj : acc.getD j 0 ≠ 1) :
    (compute_rewards_sigmoid t acc temp sm).getD i 0 =
        (compute_rewards_sigmoid t acc temp sm).getD j 0 ∧
      (compute_rewards_log t acc temp sm).getD i 0 =
        (compute_rewards_log t acc temp sm).getD j 0 := by
  have hoi := overwrite_bad_getD_bad t acc i hi hbi
  have hoj := overwrite_bad_getD_bad t acc j hj hbj
  constructor
  · rw [compute_rewards_sigmoid_getD t acc temp sm i hi,
      compute_rewards_sigmoid_getD t acc temp sm j hj,
      sig_pt1_getD t acc i hi, sig_pt1_getD t acc j hj, hoi, hoj]
  · rw [compute_rewards_log_getD t acc temp sm i hi,
      compute_rewards_log_getD t acc temp sm j hj, hoi, hoj]

/-- Witness for C10: round `[3, 4]` with both responses incorrect
(`acc = [0, 0]`), at the source defaults of each variant. -/
theorem c10_witness :
    (0 < (overwrite_bad [3, 4] [0, 0]).length ∧
        1 < (overwrite_bad [3, 4] [0, 0]).length ∧
        (([0, 0] : List ℝ).getD 0 0 ≠ 1) ∧ (([0, 0] : List ℝ).getD 1 0 ≠ 1)) ∧
      (compute_rewards_sigmoid [3, 4] [0, 0] 5 1).getD 0 0 =
          (compute_rewards_sigmoid [3, 4] [0, 0] 5 1).getD 1 0 ∧
        (compute_rewards_log [3, 4] [0, 0] 20 (1 / 2)).getD 0 0 =
          (compute_rewards_log [3, 4] [0, 0] 20 (1 / 2)).getD 1 0 := by
  have hlen : (overwrite_bad [3, 4] [0, 0]).length = 2 := by
    simp [overwrite_bad, tf_normalize]
  have h0 : 0 < (overwrite_bad [3, 4] [0, 0]).length := by omega
  have h1 : 1 < (overwrite_bad [3, 4] [0, 0]).length := by omega
  have hb0 : (([0, 0] : List ℝ).getD 0 0 ≠ 1) := by norm_num
  have hb1 : (([0, 0] : List ℝ).getD 1 0 ≠ 1) := by norm_num
  exact ⟨⟨h0, h1, hb0, hb1⟩,
    c10_incorrect_rewards_equal [3, 4] [0, 0] 5 1 0 1 h0 h1 hb0 hb1 |>.left,
    c10_incorrect_rewards_equal [3, 4] [0, 0] 20 (1 / 2) 0 1 h0 h1 hb0 hb1 |>.right⟩

/-! ## Claim C9 (amended): sigmoid variant is monotone -/

theorem zipWith_overwrite_all_one (c : ℝ) :
    ∀ (a b : List ℝ), a.length = b.length → (∀ x ∈ a, x = 1) →
      List.zipWith (fun g x => if g = 1 then x else c) a b = b
  | [], [], _, _ => rfl
  | [], _ :: _, hlen, _ => by simp at hlen
  | _ :: _, [], hlen, _ => by simp at hlen
  | g :: a, x :: b, hlen, h => by
      have hg : g = 1 := h g (List.mem_cons_self _ _)
      have ih := zipWith_overwrite_all_one c a b (by simpa using hlen)
        (fun y hy => h y (List.mem_cons_of_mem _ hy))
      simp [hg, ih]

theorem overwrite_bad_all_one (t acc : List ℝ) (hlen : acc.length = t.length)
    (hacc : ∀ a ∈ acc, a = 1) : overwrite_bad t acc = tf_normalize t := by
  rw [overwrite_bad]
  exact zipWith_overwrite_all_one (comp_max t) acc (tf_normalize t)
    (by simpa [tf_normalize] using hlen) hacc

theorem sigmoid_le_sigmoid {a b : ℝ} (h : a ≤ b) : sigmoid a ≤ sigmoid b := by
  rw [sigmoid, sigmoid]
  have h1 : 0 < 1 + Real.exp (-b) := by positivity
  have h2 : Real.exp (-b) ≤ Real.exp (-a) := Real.exp_le_exp.mpr (by linarith)
  exact one_div_le_one_div_of_le h1 (by linarith)

theorem sum_sq_nonneg (t : List ℝ) : 0 ≤ ((t.map (fun y => y ^ 2)).sum) := by
  apply List.sum_nonneg
  intro y hy
  rcases List.mem_map.mp hy with ⟨z, _, rfl⟩
  positivity

/-- In an all-correct round with at least two responses, the divisor
`pt_2.max()` of `compute_rewards_sigmoid` is strictly positive (the
appended `comp_max` sentinel cannot coincide with every normalized
latency). -/
theorem sig_pt2_max_pos (t acc : List ℝ) (hlen : acc.length = t.length)
    (hn : 2 ≤ t.length) (hacc : ∀ a ∈ acc, a = 1) :
    0 < tmax (sig_pt2 t acc 1) := by
  have how : overwrite_bad t acc = tf_normalize t := overwrite_bad_all_one t acc hlen hacc
  have hpt1 : sig_pt1 t acc = tf_normalize t ++ [comp_max t] := by
    rw [sig_pt1, how]
  have hne : sig_pt1 t acc ≠ [] := by
    rw [hpt1]
    simp
  have hM : tmax (sig_pt2 t acc 1) = tmean (sig_pt1 t acc) * 1 - tmin (sig_pt1 t acc) := by
    rw [sig_pt2]
    exact tmax_map_sub _ hne
  rw [hM, mul_one, sub_pos]
  apply tmin_lt_tmean hne
  by_contra hcon
  push_neg at hcon
  have hall : ∀ x ∈ sig_pt1 t acc, x = tmin (sig_pt1 t acc) := fun x hx =>
    le_antisymm (hcon x hx) (tmin_le_of_mem hx)
  have hc : comp_max t = tmin (sig_pt1 t acc) := by
    apply hall
    rw [hpt1]
    exact List.mem_append_right _ (List.mem_singleton.mpr rfl)
  have hnlat_all : ∀ y ∈ tf_normalize t, y = tmin (sig_pt1 t acc) := by
    intro y hy
    apply hall
    rw [hpt1]
    exact List.mem_append_left _ hy
  have htne : t ≠ [] := by
    intro h
    rw [h] at hn
    simp at hn
  have hnlatne : tf_normalize t ≠ [] := by
    intro h
    apply htne
    simpa [tf_normalize] using h
  have hmaxm : tmax (tf_normalize t) = tmin (sig_pt1 t acc) :=
    hnlat_all _ (tmax_mem hnlatne)
  have hm1 : tmin (sig_pt1 t acc) = 1 := by
    rw [comp_max, hmaxm] at hc
    linarith
  obtain ⟨x₀, hx₀⟩ := List.exists_mem_of_ne_nil t htne
  have hx₀1 : x₀ / l2norm t = 1 := by
    have hx := hnlat_all (x₀ / l2norm t)
      (List.mem_map_of_mem (fun x => x / l2norm t) hx₀)
    rw [hm1] at hx
    exact hx
  have hS0 : l2norm t ≠ 0 := by
    intro h
    rw [h, div_zero] at hx₀1
    norm_num at hx₀1
  have hSpos : 0 < l2norm t := lt_of_le_of_ne (l2norm_nonneg t) (Ne.symm hS0)
  have hteq : ∀ x ∈ t, x = l2norm t := by
    intro x hx
    have hx1 : x / l2norm t = 1 := by
      have := hnlat_all (x / l2norm t)
        (List.mem_map_of_mem (fun x => x / l2norm t) hx)
      rw [hm1] at this
      exact this
    field_simp at hx1
    exact hx1
  have hsum : ((t.map (fun y => y ^ 2)).sum) = (t.length : ℝ) * l2norm t ^ 2 := by
    have hall2 : ∀ y ∈ t.map (fun y => y ^ 2), y = l2norm t ^ 2 := by
      intro y hy
      rcases List.mem_map.mp hy with ⟨z, hz, rfl⟩
      rw [hteq z hz]
    have := sum_of_all_eq hall2
    simpa using this
  have hS2 : l2norm t ^ 2 = ((t.map (fun y => y ^ 2)).sum) := by
    rw [l2norm]
    exact Real.sq_sqrt (sum_sq_nonneg t)
  have hlen2 : (2 : ℝ) ≤ (t.length : ℝ) := by exact_mod_cast hn
  nlinarith [pow_pos hSpos 2]

/-- C9 (amended): holding accuracy 1 for all responses,
`compute_rewards_sigmoid` at the source defaults (`temp = 5`,
`scale_mean = 1`) is non-increasing in normalized latency; the
`compute_rewards_log` variant is not (see the counterexample). -/
theorem c9_sigmoid_monotone (t acc : List ℝ) (i j : ℕ)
    (hlen : acc.length = t.length) (hn : 2 ≤ t.length)
    (hacc : ∀ a ∈ acc, a = 1) (hi : i < t.length) (hj : j < t.length)
    (hij : (tf_normalize t).getD i 0 ≤ (tf_normalize t).getD j 0) :
    (compute_rewards_sigmoid t acc 5 1).getD j 0 ≤
      (compute_rewards_sigmoid t acc 5 1).getD i 0 := by
  have how : overwrite_bad t acc = tf_normalize t := overwrite_bad_all_one t acc hlen hacc
  have hlenow : (overwrite_bad t acc).length = t.length := by
    rw [how]
    simp [tf_normalize]
  have hi' : i < (overwrite_bad t acc).length := by omega
  have hj' : j < (overwrite_bad t acc).length := by omega
  rw [compute_rewards_sigmoid_getD t acc 5 1 i hi',
    compute_rewards_sigmoid_getD t acc 5 1 j hj']
  apply sigmoid_le_sigmoid
  have hM := sig_pt2_max_pos t acc hlen hn hacc
  have hpi : (sig_pt1 t acc).getD i 0 = (tf_normalize t).getD i 0 := by
    rw [sig_pt1_getD t acc i hi', how]
  have hpj : (sig_pt1 t acc).getD j 0 = (tf_normalize t).getD j 0 := by
    rw [sig_pt1_getD t acc j hj', how]
  rw [hpi, hpj]
  have hnum : tmean (sig_pt1 t acc) * 1 - (tf_normalize t).getD j 0 ≤
      tmean (sig_pt1 t acc) * 1 - (tf_normalize t).getD i 0 := by linarith
  have hdiv := (div_le_div_iff_of_pos_right hM).mpr hnum
  exact mul_le_mul_of_nonneg_left hdiv (by norm_num : (0 : ℝ) ≤ 5)

/-- Witness for C9 (amended): the all-correct round `[3, 4]`, indices 0 and 1. -/
theorem c9_witness :
    (([1, 1] : List ℝ).length = ([3, 4] : List ℝ).length ∧
        2 ≤ ([3, 4] : List ℝ).length ∧ (∀ a ∈ ([1, 1] : List ℝ), a = 1) ∧
        (tf_normalize [3, 4]).getD 0 0 ≤ (tf_normalize [3, 4]).getD 1 0) ∧
      (compute_rewards_sigmoid [3, 4] [1, 1] 5 1).getD 1 0 ≤
        (compute_rewards_sigmoid [3, 4] [1, 1] 5 1).getD 0 0 := by
  have h1 : ([1, 1] : List ℝ).length = ([3, 4] : List ℝ).length := by simp
  have h2 : 2 ≤ ([3, 4] : List ℝ).length := by simp
  have h3 : ∀ a ∈ ([1, 1] : List ℝ), a = 1 := by
    intro a ha
    rcases List.mem_cons.mp ha with rfl | ha'
    · rfl
    · exact List.mem_singleton.mp ha'
  have h4 : (tf_normalize [3, 4]).getD 0 0 ≤ (tf_normalize [3, 4]).getD 1 0 := by
    rw [tf_normalize_34]
    norm_num
  exact ⟨⟨h1, h2, h3, h4⟩,
    c9_sigmoid_monotone [3, 4] [1, 1] 0 1 h1 h2 h3 (by simp) (by simp) h4⟩

/-! ## Trace uniqueness and the claims C4, C5, C6, C7, C8 -/

theorem isTrace_unique {σ : Type} {f : ℕ → σ → σ} {init : σ} {steps : ℕ}
    {H₁ H₂ : List σ} (h₁ : IsTrace f init steps H₁) (h₂ : IsTrace f init steps H₂) :
    H₁ = H₂ := by
  obtain ⟨hl₁, hh₁, hs₁⟩ := h₁
  obtain ⟨hl₂, hh₂, hs₂⟩ := h₂
  have key : ∀ n : ℕ, H₁[n]? = H₂[n]? := by
    intro n
    induction n with
    | zero => rw [hh₁, hh₂]
    | succ k ih =>
        by_cases hk : k < steps
        · rw [hs₁ k hk, hs₂ k hk, ih]
        · have hb1 : H₁.length ≤ k + 1 := by omega
          have hb2 : H₂.length ≤ k + 1 := by omega
          rw [List.getElem?_eq_none hb1, List.getElem?_eq_none hb2]
  exact List.ext_getElem? key

theorem traceList_isTrace {σ : Type} (f : ℕ → σ → σ) (init : σ) (steps : ℕ) :
    IsTrace f init steps (traceList f init steps) := by
  refine ⟨by simp [traceList], ?_, ?_⟩
  · rw [traceList, List.getElem?_map, List.getElem?_range (by omega : 0 < steps + 1)]
    rfl
  · intro t ht
    rw [traceList, List.getElem?_map, List.getElem?_map,
      List.getElem?_range (by omega : t + 1 < steps + 1),
      List.getElem?_range (by omega : t < steps + 1)]
    rfl

/-- C8: the ground-truth simulation is deterministic: the §4.3 execution
relation admits exactly one history for given seed, rule, timestep count,
radius and neighborhood, and `Simulate1D_run` / `Simulate2D_run` produce
it — so any two runs on identical inputs yield identical histories. -/
theorem c8_simulation_deterministic :
    (∀ (ca : List ℤ) (timesteps : ℕ) (rule : List ℤ → ℤ → ℕ → ℤ) (r : ℕ)
        (H₁ H₂ : List (List ℤ)),
        IsTrace (fun t row => step1d rule r t row) ca timesteps H₁ →
        IsTrace (fun t row => step1d rule r t row) ca timesteps H₂ → H₁ = H₂) ∧
      (∀ (ca : List ℤ) (timesteps : ℕ) (rule : List ℤ → ℤ → ℕ → ℤ) (r : ℕ),
        IsTrace (fun t row => step1d rule r t row) ca timesteps
          (Simulate1D_run ca timesteps rule r)) ∧
      (∀ (ca : Grid) (timesteps : ℕ) (rule : List ℤ → ℤ → ℕ → ℤ) (r : ℕ)
        (nt : String) (H₁ H₂ : List Grid),
        IsTrace (fun t g => step2d rule r (neighbourhood_or_default nt == "Moore") t g)
          ca timesteps H₁ →
        IsTrace (fun t g => step2d rule r (neighbourhood_or_default nt == "Moore") t g)
          ca timesteps H₂ → H₁ = H₂) ∧
      (∀ (ca : Grid) (timesteps : ℕ) (rule : List ℤ → ℤ → ℕ → ℤ) (r : ℕ) (nt : String),
        IsTrace (fun t g => step2d rule r (neighbourhood_or_default nt == "Moore") t g)
          ca timesteps (Simulate2D_run ca timesteps rule r nt)) := by
  refine ⟨?_, ?_, ?_, ?_⟩
  · intro _ _ _ _ _ _ h₁ h₂
    exact isTrace_unique h₁ h₂
  · intro ca timesteps rule r
    simpa [Simulate1D_run] using
      traceList_isTrace (fun t row => step1d rule r t row) ca timesteps
  · intro _ _ _ _ _ _ _ h₁ h₂
    exact isTrace_unique h₁ h₂
  · intro ca timesteps rule r nt
    simpa [Simulate2D_run] using
      traceList_isTrace
        (fun t g => step2d rule r (neighbourhood_or_default nt == "Moore") t g)
        ca timesteps

/-- Witness for C8: Rule 30 on the 3-cell torus `[1, 0, 0]` for one step
(history `[[1, 0, 0], [1, 1, 1]]`), and Game of Life on the 2×2 torus
`[[1, 0], [0, 0]]` for one step (the lone cell dies). -/
theorem c8_witness :
    Simulate1D_run [1, 0, 0] 1 rule30_fn 1 = [[1, 0, 0], [1, 1, 1]] ∧
      Simulate2D_run [[1, 0], [0, 0]] 1 game_of_life_fn 1 "Moore"
        = [[[1, 0], [0, 0]], [[0, 0], [0, 0]]] := by
  have h1r : IsTrace (fun t row => step1d rule30_fn 1 t row) [1, 0, 0] 1
      (Simulate1D_run [1, 0, 0] 1 rule30_fn 1) := by decide
  have h1l : IsTrace (fun t row => step1d rule30_fn 1 t row) [1, 0, 0] 1
      [[1, 0, 0], [1, 1, 1]] := by decide
  have h2r : IsTrace
      (fun t g => step2d game_of_life_fn 1 (neighbourhood_or_default "Moore" == "Moore") t g)
      [[1, 0], [0, 0]] 1 (Simulate2D_run [[1, 0], [0, 0]] 1 game_of_life_fn 1 "Moore") := by
    decide
  have h2l : IsTrace
      (fun t g => step2d game_of_life_fn 1 (neighbourhood_or_default "Moore" == "Moore") t g)
      [[1, 0], [0, 0]] 1 [[[1, 0], [0, 0]], [[0, 0], [0, 0]]] := by decide
  exact ⟨c8_simulation_deterministic.1 [1, 0, 0] 1 rule30_fn 1 _ _ h1r h1l,
    (c8_simulation_deterministic.2.2.1) [[1, 0], [0, 0]] 1 game_of_life_fn 1 "Moore" _ _
      h2r h2l⟩

/-- C5: under the §6 codec contract (decode failure is returned as absent,
never thrown), `get_accuracy` never raises: it returns `0.0` when the
decoded grid is absent or not an array, and `1.0` exactly when the decoded
array is elementwise-equal to the ground truth. -/
theorem c5_get_accuracy_total (gt : Grid) (d : Option DecodedVal) :
    get_accuracy gt (DecodeOutcome.val d) =
      Except.ok (if d = some (DecodedVal.arr gt) then 1 else 0) := by
  match d with
  | none => simp [get_accuracy]
  | some .nonArray => simp [get_accuracy]
  | some (.arr g) => simp [get_accuracy, eq_comm]

/-- C6: `get_rewards` with an empty response list evaluates
`torch.zeros_like(0)`, whose `TypeError` escapes (the branch precedes the
`try`), instead of returning the intended `([], zeros)` result. -/
theorem c6_get_rewards_empty_raises (q : CAsynapse) :
    get_rewards q [] =
      PyOutcome.exn "TypeError: zeros_like expects a Tensor argument, got int" := rfl

/-- C4: on a query whose rule name is `"NotARule"`, `get_rewards` raises
`TypeError` (the `rulesets.rule_classes` attribute is undefined, and the
blanket handler itself crashes in `torch.zeros_like(0)`) rather than
returning the unreachable abort tensor; the persisted scores are left
unchanged only because `Validator.forward` catches the escaping
exception around `update_scores`. -/
theorem c4_unknown_rule (alpha : ℝ) (prev : List ℝ) (rs : List (ℕ × Response)) :
    get_rewards notARuleQuery rs =
        PyOutcome.exn "TypeError: zeros_like expects a Tensor argument, got int" ∧
      forward_scores_update alpha prev notARuleQuery rs = prev := by
  have hg : get_rewards notARuleQuery rs =
      PyOutcome.exn "TypeError: zeros_like expects a Tensor argument, got int" := by
    rw [get_rewards]
    split <;> rfl
  refine ⟨hg, ?_⟩
  rw [forward_scores_update, hg]

/-- C7: `InitialConditions.init_2d` never returns a grid — for every size
and activation fraction it raises `NameError` at `cells.reshape(1, rows,
cols)` (after computing the filler length from the XOR `self.size^2`). -/
theorem c7_init_2d_raises (size : ℕ) (percentage : ℚ) :
    init_2d size percentage = Except.error "NameError: name rows is not defined" := rfl

/-- The template variant `init_random_2d` delivers the promised exact
count: before (and, shuffling being a permutation, after) the shuffle the
flat cell vector holds exactly `⌊rows · cols · p⌋` ones, the rest zeros,
and has `rows · cols` cells in total, for every `p ∈ [0, 1]`. -/
theorem init_random_2d_cells_count (rows cols : ℕ) (p : ℚ) (_hp0 : 0 ≤ p) (hp1 : p ≤ 1) :
    (init_random_2d_cells rows cols p).count 1 = (⌊(rows : ℚ) * cols * p⌋).toNat ∧
      (init_random_2d_cells rows cols p).length = rows * cols ∧
      ∀ l : List ℤ, l.Perm (init_random_2d_cells rows cols p) →
        l.count 1 = (⌊(rows : ℚ) * cols * p⌋).toNat := by
  have hfl : (⌊(rows : ℚ) * cols * p⌋).toNat ≤ rows * cols := by
    have h1 : (rows : ℚ) * cols * p ≤ (rows : ℚ) * cols := by
      nlinarith [mul_nonneg (Nat.cast_nonneg (α := ℚ) rows) (Nat.cast_nonneg (α := ℚ) cols)]
    have h2 : ⌊(rows : ℚ) * cols * p⌋ ≤ ⌊((rows * cols : ℕ) : ℚ)⌋ := by
      apply Int.floor_le_floor
      push_cast
      exact h1
    rw [Int.floor_natCast] at h2
    omega
  have hcount : (init_random_2d_cells rows cols p).count 1
      = (⌊(rows : ℚ) * cols * p⌋).toNat := by
    rw [init_random_2d_cells]
    rw [List.count_append, List.count_replicate_self, List.count_replicate]
    norm_num
  refine ⟨hcount, ?_, ?_⟩
  · rw [init_random_2d_cells]
    simp only [List.length_append, List.length_replicate]
    omega
  · intro l hl
    rw [hl.count_eq]
    exact hcount

end BtAutomata
